import Mathlib

/-!
Shallow embedding of the file_organizer repository core
(`file_organizer.py` and `watcher.py`) and proofs about it.

Modelling conventions:
* A filesystem path is a directory (list of components) plus a final name.
* The filesystem state is a finite list of regular-file paths plus a finite
  list of directory paths; `Path.exists()` is membership in either,
  `Path.is_dir()` is membership in the directory list.
* Python strings are Lean `String`s; `str.lower()` is modelled per-character
  on the ASCII range (the extensions and filenames the program handles).
* `str(counter)` for the rename loop is modelled by `natStr`, decimal
  notation with the most significant digit first.
* External effects (strftime formatting, `stat().st_mtime`, and the outcome
  of `shutil.move`) are inputs to the embedded functions.
-/

/-- ASCII uppercase test, modelling the case distinction of Python
`str.lower()` on the ASCII range. -/
def isUpperAscii (c : Char) : Bool := 65 ≤ c.toNat && c.toNat ≤ 90

/-- Lower-case one character: ASCII A-Z maps to a-z, all else unchanged
(models Python `str.lower()` per character on the ASCII range). -/
def charLower (c : Char) : Char :=
  if isUpperAscii c then Char.ofNat (c.toNat + 32) else c

/-- Lower-case a string character by character; models `str.lower()`
(`file_organizer.py` line 61 applies it to the file suffix). -/
def strLower (s : String) : String := ⟨s.data.map charLower⟩

/-- Index of the last '.' in a character list, if any
(models Python `str.rfind`, used by `pathlib` to split a name). -/
def rfindDotIdx : List Char → Option Nat
  | [] => none
  | c :: cs =>
    match rfindDotIdx cs with
    | some i => some (i + 1)
    | none => if c = '.' then some 0 else none

/-- Split a final path component into (stem, suffix) following CPython
`pathlib`: with `i` the index of the last dot, the split happens only when
`0 < i < len - 1`; otherwise the suffix is empty. -/
def pySplitName (name : String) : String × String :=
  match rfindDotIdx name.data with
  | some i =>
    if 0 < i ∧ i < name.data.length - 1 then
      (⟨name.data.take i⟩, ⟨name.data.drop i⟩)
    else (name, "")
  | none => (name, "")

/-- The `Path.stem` of a final path component. -/
def pyStem (name : String) : String := (pySplitName name).1

/-- The `Path.suffix` of a final path component. -/
def pySuffix (name : String) : String := (pySplitName name).2

/-- Decimal digit characters of `n`, most significant first; fuel-based so
that it reduces inside the kernel. The fuel argument only needs to be at
least `n`. -/
def natStrAux : Nat → Nat → List Char
  | 0, _ => []
  | fuel + 1, n =>
    if n = 0 then [] else natStrAux fuel (n / 10) ++ [Nat.digitChar (n % 10)]

/-- Decimal notation for a natural number; models Python `str(counter)`
inside the f-string of `file_organizer.py` line 124. -/
def natStr (n : Nat) : String := if n = 0 then "0" else ⟨natStrAux n n⟩

/-- A filesystem path: directory components plus the final name. -/
structure FsPath where
  dir : List String
  name : String
deriving DecidableEq, Repr

/-- A finite filesystem state: the regular files and the directories. -/
structure FS where
  files : List FsPath
  dirs : List (List String)
deriving DecidableEq, Repr

/-- The full component list of a path (directory components plus name),
used to compare a file path against a directory entry. -/
def encPath (p : FsPath) : List String := p.dir ++ [p.name]

/-- Python `Path.exists()`: true for a regular file or a directory. -/
def fsExists (fs : FS) (p : FsPath) : Prop :=
  p ∈ fs.files ∨ encPath p ∈ fs.dirs

instance (fs : FS) (p : FsPath) : Decidable (fsExists fs p) := by
  unfold fsExists; infer_instance

/-- Python `Path.is_dir()`. -/
def isDirFS (fs : FS) (p : FsPath) : Prop := encPath p ∈ fs.dirs

instance (fs : FS) (p : FsPath) : Decidable (isDirFS fs p) := by
  unfold isDirFS; infer_instance

/-- All nonempty prefixes of a directory path, the chain of directories
created by `mkdir(parents=True)`. -/
def dirPrefixes (d : List String) : List (List String) :=
  (List.range d.length).map (fun i => d.take (i + 1))

/-- `Path.mkdir(parents=True, exist_ok=True)` (`file_organizer.py` line
103): create the directory and all its ancestors; existing directories are
left alone, regular files are untouched. -/
def mkdirParents (fs : FS) (d : List String) : FS :=
  { fs with dirs := fs.dirs ++ (dirPrefixes d).filter (fun q => decide (q ∉ fs.dirs)) }

/-- `shutil.move` on a same-volume filesystem: the source entry is removed
and the destination entry appears (overwriting an existing entry at the
destination). -/
def moveFile (fs : FS) (src dst : FsPath) : FS :=
  { fs with files := dst :: (fs.files.erase src).erase dst }

/-- One entry of `organize_rules`: the extension list and the target
folder, as configured. The configuration side is stored exactly as
written - the code never normalizes it. -/
structure Rule where
  extensions : List String
  target_folder : List String
deriving DecidableEq, Repr

/-- The configuration object consumed by `FileOrganizer`. `organize_rules`
is an insertion-ordered dict, modelled as an ordered association list.
`duplicate_handling` is an `Option` because `config.get` distinguishes a
missing key (defaulted to "rename" at the use site). Other optional keys
are modelled already defaulted (`[]`, `false`), matching `config.get`
with those defaults. -/
structure Config where
  organize_rules : List (String × Rule)
  ignore_extensions : List String
  ignore_files : List String
  duplicate_handling : Option String
  organize_by_date : Bool
  date_format : String
  dry_run : Bool
  recursive : Bool
  watch_directories : List String
deriving DecidableEq, Repr

/-- First configured category whose extension list contains `ext`,
scanning `organize_rules` in configured order (`file_organizer.py` lines
72-74). -/
def findCat (rules : List (String × Rule)) (ext : String) : Option String :=
  match rules with
  | [] => none
  | (c, r) :: rest => if ext ∈ r.extensions then some c else findCat rest ext

/-- `FileOrganizer._get_file_category` (`file_organizer.py` lines 59-77):
lower-case the suffix; `none` for an ignored extension or filename;
otherwise the first matching category, else "Extras". -/
def getFileCategory (cfg : Config) (name : String) : Option String :=
  let extension := strLower (pySuffix name)
  if extension ∈ cfg.ignore_extensions then none
  else if name ∈ cfg.ignore_files then none
  else
    match findCat cfg.organize_rules extension with
    | some c => some c
    | none => some "Extras"

/-- The hard-coded fallback used by `_get_target_path` when the category is
"Extras" and no rule is configured: the literal
`Path("C:\\Users\\lnloh\\Documents\\Organized\\Extras")` of
`file_organizer.py` line 91, as components. -/
def defaultExtrasDir : List String :=
  ["C:", "Users", "lnloh", "Documents", "Organized", "Extras"]

/-- `FileOrganizer._get_target_path` (`file_organizer.py` lines 79-104).
`strf` models `datetime.strftime` and `mt` the file's `stat().st_mtime`;
both are external inputs. The non-"Extras" branch is a dict lookup that in
the program is always called with a configured category name (the `.getD`
default is never reached from `organize_file`). Returns the target path
and the filesystem after the `mkdir(parents=True, exist_ok=True)` side
effect. -/
def getTargetPath (strf : String → Nat → String) (mtime : FsPath → Nat)
    (cfg : Config) (fs : FS) (p : FsPath) (category : String) : FsPath × FS :=
  let base :=
    if category = "Extras" then
      let base_paths := cfg.organize_rules.map (fun cr => cr.2.target_folder.dropLast)
      match base_paths with
      | b :: _ => b ++ ["Extras"]
      | [] => defaultExtrasDir
    else ((List.lookup category cfg.organize_rules).getD ⟨[], []⟩).target_folder
  let folder :=
    if cfg.organize_by_date then base ++ [strf cfg.date_format (mtime p)] else base
  (⟨folder, p.name⟩, mkdirParents fs folder)

/-- The k-th rename candidate for a colliding target: stem, underscore,
decimal counter, then the suffix, in the target's directory
(`file_organizer.py` line 124: `f"{stem}_{counter}{suffix}"`). -/
def renameCand (t : FsPath) (k : Nat) : FsPath :=
  ⟨t.dir, pyStem t.name ++ "_" ++ natStr k ++ pySuffix t.name⟩

/-- The `while target_path.exists()` loop of `file_organizer.py` lines
123-126, with explicit fuel: `current` is the path being tested, `counter`
the next suffix number. `none` means the fuel ran out (shown below to be
unreachable for the fuel chosen in `handleDuplicate`). -/
def renameLoop (fs : FS) (t : FsPath) : Nat → Nat → FsPath → Option FsPath
  | _, 0, _ => none
  | counter, fuel + 1, current =>
    if fsExists fs current then
      renameLoop fs t (counter + 1) fuel (renameCand t counter)
    else some current

/-- Keys occupied in the filesystem, files and directories together, as
component lists. Only used to size the rename-loop fuel. -/
def occupiedKeys (fs : FS) : List (List String) :=
  fs.files.map encPath ++ fs.dirs

/-- Fuel that always suffices for the rename loop: one probe per occupied
entry, plus the probe of the original target, plus the final free probe. -/
def fsFuel (fs : FS) : Nat := (occupiedKeys fs).length + 2

/-- `FileOrganizer._handle_duplicate` (`file_organizer.py` lines 106-128):
an unoccupied destination is returned unchanged; otherwise "skip" yields
`none`, "overwrite" yields the destination, and anything else (the `else`
branch, including the default "rename") runs the rename loop. -/
def handleDuplicate (cfg : Config) (fs : FS) (t : FsPath) : Option FsPath :=
  if ¬ fsExists fs t then some t
  else
    let dh := cfg.duplicate_handling.getD "rename"
    if dh = "skip" then none
    else if dh = "overwrite" then some t
    else renameLoop fs t 1 (fsFuel fs) t

/-- The `stats` counters of `FileOrganizer` (`file_organizer.py` line 23). -/
structure Stats where
  moved : Nat
  skipped : Nat
  errors : Nat
deriving DecidableEq, Repr

/-- Outcome of the `shutil.move` call, an external input to the embedding:
it succeeds, raises `PermissionError`, or raises some other exception
(the two `except` arms of `file_organizer.py` lines 167-172). -/
inductive MoveRes where
  | ok
  | permError
  | otherError
deriving DecidableEq, Repr

/-- The log records produced inside `organize_file`, one constructor per
logging call site (`file_organizer.py` lines 141, 151, 157, 160, 168,
171). -/
inductive LogMsg where
  | skipIgnored (name : String)
  | skipDuplicate (name : String)
  | dryRunMove (src dst : FsPath)
  | movedMsg (name : String) (category : String) (targetName : String)
  | permDenied (p : FsPath)
  | genericError (p : FsPath)
deriving DecidableEq, Repr

/-- The result of one `organize_file` call: the boolean return value, the
updated counters, the filesystem after its side effects, and the log
records emitted. -/
structure OrgResult where
  ret : Bool
  stats : Stats
  fs : FS
  logs : List LogMsg
deriving DecidableEq, Repr

/-- `FileOrganizer.organize_file` (`file_organizer.py` lines 130-174).
Control flow follows the source: a directory returns `False` at once; a
falsy category (`None`, or the empty string, matching Python `if not
category`) counts as skipped; a `None` from duplicate handling counts as
skipped; dry-run logs and counts the move without touching the files;
otherwise the move outcome `mv` decides between success and the two
`except` arms, which increment `errors` and return `False` - no exception
leaves this function. -/
def organizeFile (strf : String → Nat → String) (mtime : FsPath → Nat)
    (cfg : Config) (mv : MoveRes) (fs : FS) (stats : Stats) (p : FsPath) : OrgResult :=
  if isDirFS fs p then ⟨false, stats, fs, []⟩
  else
    match getFileCategory cfg p.name with
    | none => ⟨false, { stats with skipped := stats.skipped + 1 }, fs, [.skipIgnored p.name]⟩
    | some category =>
      if category = "" then
        ⟨false, { stats with skipped := stats.skipped + 1 }, fs, [.skipIgnored p.name]⟩
      else
        let tpfs := getTargetPath strf mtime cfg fs p category
        match handleDuplicate cfg tpfs.2 tpfs.1 with
        | none =>
          ⟨false, { stats with skipped := stats.skipped + 1 }, tpfs.2, [.skipDuplicate p.name]⟩
        | some target =>
          if cfg.dry_run then
            ⟨true, { stats with moved := stats.moved + 1 }, tpfs.2, [.dryRunMove p target]⟩
          else
            match mv with
            | .ok =>
              ⟨true, { stats with moved := stats.moved + 1 }, moveFile tpfs.2 p target,
                [.movedMsg p.name category target.name]⟩
            | .permError =>
              ⟨false, { stats with errors := stats.errors + 1 }, tpfs.2, [.permDenied p]⟩
            | .otherError =>
              ⟨false, { stats with errors := stats.errors + 1 }, tpfs.2, [.genericError p]⟩

/-- The per-file loop of `FileOrganizer.organize_directory`
(`file_organizer.py` lines 201-202): call `organize_file` on each file in
turn, threading counters and filesystem; `mvs` gives the move outcome for
each path. -/
def organizeFiles (strf : String → Nat → String) (mtime : FsPath → Nat)
    (cfg : Config) (mvs : FsPath → MoveRes) (fs : FS) (stats : Stats) :
    List FsPath → Stats × FS
  | [] => (stats, fs)
  | p :: rest =>
    let r := organizeFile strf mtime cfg (mvs p) fs stats p
    organizeFiles strf mtime cfg mvs r.fs r.stats rest

/-- The two existence probes and two size reads of
`FileOrganizerHandler._process_file` (`watcher.py` lines 56-72), as
observed by the handler at its four filesystem accesses; an external
input to the embedding. -/
structure Probe where
  exists1 : Bool
  size1 : Nat
  exists2 : Bool
  size2 : Nat
deriving DecidableEq, Repr

/-- Result of one `_process_file` call: the in-flight set as left by the
call (the deferred removal has not run yet), whether the probe sequence
was entered (the event was not dropped), and whether
`organizer.organize_file` was invoked. -/
structure ProcResult where
  inflight : List String
  ran : Bool
  organized : Bool
deriving DecidableEq, Repr

/-- `FileOrganizerHandler._process_file` (`watcher.py` lines 44-89).
`inflight` is `self.processing_files`; the path key is `str(file_path)`.
An event for a path already in flight returns at once. Otherwise the path
is added and the probe sequence runs: vanish at either existence check or
a size change between the two reads returns without organizing; only a
stable, still-present file reaches `organize_file` (`organized = true`).
The `finally` block's removal is deferred to a daemon thread after a
5-second sleep and is modelled separately by `releaseInFlight`. -/
def processFile (inflight : List String) (path : String) (pr : Probe) : ProcResult :=
  if path ∈ inflight then ⟨inflight, false, false⟩
  else
    let inflight2 := path :: inflight
    if ¬ pr.exists1 then ⟨inflight2, true, false⟩
    else if ¬ pr.exists2 then ⟨inflight2, true, false⟩
    else if pr.size1 ≠ pr.size2 then ⟨inflight2, true, false⟩
    else ⟨inflight2, true, true⟩

/-- The deferred `self.processing_files.discard(str(file_path))` of
`watcher.py` line 87, which runs on a daemon thread five seconds after
`_process_file` returned. -/
def releaseInFlight (inflight : List String) (path : String) : List String :=
  inflight.erase path

theorem toNat_charLower (c : Char) (h : isUpperAscii c = true) :
    (charLower c).toNat = c.toNat + 32 := by
  simp only [charLower, h, if_true]
  have hval : Nat.isValidChar (c.toNat + 32) := by
    simp only [isUpperAscii, Bool.and_eq_true, decide_eq_true_eq] at h
    exact Or.inl (by omega)
  simp only [Char.ofNat, hval, dif_pos]
  rfl

theorem isUpperAscii_charLower (c : Char) : isUpperAscii (charLower c) = false := by
  by_cases h : isUpperAscii c = true
  · have hle : 65 ≤ c.toNat := by
      simp only [isUpperAscii, Bool.and_eq_true, decide_eq_true_eq] at h
      exact h.1
    have hgt : ¬ ((charLower c).toNat ≤ 90) := by
      rw [toNat_charLower c h]; omega
    simp [isUpperAscii, hgt]
  · have hid : charLower c = c := by simp [charLower, h]
    rw [hid]
    exact Bool.not_eq_true _ ▸ h

theorem natStrAux_eq_digits (fuel n : Nat) (h : n ≤ fuel) :
    natStrAux fuel n = ((Nat.digits 10 n).map Nat.digitChar).reverse := by
  induction fuel generalizing n with
  | zero =>
    have hz : n = 0 := Nat.le_zero.mp h
    subst hz
    simp [natStrAux]
  | succ f ih =>
    by_cases hn : n = 0
    · subst hn; simp [natStrAux]
    · have hpos : 0 < n := Nat.pos_of_ne_zero hn
      have hdiv : n / 10 ≤ f := by
        have : n / 10 < n := Nat.div_lt_self hpos (by omega)
        omega
      rw [natStrAux, if_neg hn, ih _ hdiv, Nat.digits_def' (by omega : (1:Nat) < 10) hpos]
      simp

theorem map_digitChar_inj : ∀ (L1 L2 : List Nat), (∀ d ∈ L1, d < 10) → (∀ d ∈ L2, d < 10) →
    L1.map Nat.digitChar = L2.map Nat.digitChar → L1 = L2 := by
  intro L1
  induction L1 with
  | nil =>
    intro L2 _ _ hm
    cases L2 with
    | nil => rfl
    | cons b t => simp at hm
  | cons a t ih =>
    intro L2 hb1 hb2 hm
    cases L2 with
    | nil => simp at hm
    | cons b t2 =>
      simp only [List.map_cons, List.cons.injEq] at hm
      have hab : a = b := by
        have ha : a < 10 := hb1 a (by simp)
        have hb : b < 10 := hb2 b (by simp)
        exact (by decide : ∀ d, d < 10 → ∀ e, e < 10 →
          Nat.digitChar d = Nat.digitChar e → d = e) a ha b hb hm.1
      have ht : t = t2 :=
        ih t2 (fun d hd => hb1 d (by simp [hd])) (fun d hd => hb2 d (by simp [hd])) hm.2
      rw [hab, ht]

theorem natStr_inj (m n : Nat) (hm : 0 < m) (hn : 0 < n) (h : natStr m = natStr n) :
    m = n := by
  rw [natStr, natStr, if_neg (Nat.pos_iff_ne_zero.mp hm),
    if_neg (Nat.pos_iff_ne_zero.mp hn)] at h
  have hdata : natStrAux m m = natStrAux n n := congrArg String.data h
  rw [natStrAux_eq_digits m m (le_refl m), natStrAux_eq_digits n n (le_refl n)] at hdata
  have hmap : (Nat.digits 10 m).map Nat.digitChar = (Nat.digits 10 n).map Nat.digitChar := by
    have := congrArg List.reverse hdata
    simpa using this
  have hdig : Nat.digits 10 m = Nat.digits 10 n :=
    map_digitChar_inj _ _ (fun d hd => Nat.digits_lt_base (by omega) hd)
      (fun d hd => Nat.digits_lt_base (by omega) hd) hmap
  calc m = Nat.ofDigits 10 (Nat.digits 10 m) := (Nat.ofDigits_digits 10 m).symm
    _ = Nat.ofDigits 10 (Nat.digits 10 n) := by rw [hdig]
    _ = n := Nat.ofDigits_digits 10 n

theorem encPath_inj (p q : FsPath) (h : encPath p = encPath q) : p = q := by
  unfold encPath at h
  have hlen : p.dir.length = q.dir.length := by
    have := congrArg List.length h
    simp at this
    omega
  obtain ⟨hdir, hname⟩ := List.append_inj h hlen
  cases p; cases q
  simp_all

theorem renameCand_inj (t : FsPath) (j k : Nat) (hj : 0 < j) (hk : 0 < k)
    (h : renameCand t j = renameCand t k) : j = k := by
  unfold renameCand at h
  have hname : pyStem t.name ++ "_" ++ natStr j ++ pySuffix t.name =
      pyStem t.name ++ "_" ++ natStr k ++ pySuffix t.name := congrArg FsPath.name h
  have hdata := congrArg String.data hname
  simp only [String.data_append] at hdata
  have h3 : (natStr j).data = (natStr k).data :=
    List.append_cancel_left (List.append_cancel_right hdata)
  have h4 : natStr j = natStr k := by
    cases hjj : natStr j
    cases hkk : natStr k
    simp_all
  exact natStr_inj j k hj hk h4

theorem mem_mkdirParents (fs : FS) (d : List String) (q : List String) :
    q ∈ (mkdirParents fs d).dirs ↔ q ∈ fs.dirs ∨ q ∈ dirPrefixes d := by
  simp only [mkdirParents, List.mem_append, List.mem_filter, decide_eq_true_eq]
  constructor
  · rintro (h | ⟨h1, _⟩)
    · exact Or.inl h
    · exact Or.inr h1
  · rintro (h | h)
    · exact Or.inl h
    · by_cases hq : q ∈ fs.dirs
      · exact Or.inl hq
      · exact Or.inr ⟨h, hq⟩

theorem files_mkdirParents (fs : FS) (d : List String) :
    (mkdirParents fs d).files = fs.files := rfl

theorem mem_occupiedKeys_of_fsExists (fs : FS) (p : FsPath) (h : fsExists fs p) :
    encPath p ∈ occupiedKeys fs := by
  unfold occupiedKeys
  rcases h with h | h
  · exact List.mem_append_left _ (List.mem_map_of_mem encPath h)
  · exact List.mem_append_right _ h

theorem exists_free_cand (fs : FS) (t : FsPath) :
    ∃ k, 1 ≤ k ∧ k ≤ (occupiedKeys fs).length + 1 ∧ ¬ fsExists fs (renameCand t k) := by
  by_contra hall
  push_neg at hall
  set N := (occupiedKeys fs).length with hN
  have hsub : (Finset.Icc 1 (N + 1)).image (fun k => encPath (renameCand t k)) ⊆
      (occupiedKeys fs).toFinset := by
    intro q hq
    simp only [Finset.mem_image, Finset.mem_Icc] at hq
    obtain ⟨k, ⟨hk1, hk2⟩, hkq⟩ := hq
    rw [List.mem_toFinset, ← hkq]
    exact mem_occupiedKeys_of_fsExists fs _ (hall k hk1 hk2)
  have hinj : Set.InjOn (fun k => encPath (renameCand t k)) (Finset.Icc 1 (N + 1)) := by
    intro j hj k hk hjk
    simp only [Finset.coe_Icc, Set.mem_Icc] at hj hk
    exact renameCand_inj t j k (by omega) (by omega) (encPath_inj _ _ hjk)
  have hcard1 : ((Finset.Icc 1 (N + 1)).image (fun k => encPath (renameCand t k))).card
      = N + 1 := by
    rw [Finset.card_image_of_injOn hinj, Nat.card_Icc]
    omega
  have hcard2 : (occupiedKeys fs).toFinset.card ≤ N := List.toFinset_card_le _
  have := Finset.card_le_card hsub
  omega

theorem renameLoop_correct (fs : FS) (t : FsPath) (kf : Nat)
    (hfree : ¬ fsExists fs (renameCand t kf)) :
    ∀ fuel k, 1 ≤ k → k ≤ kf →
    (∀ j, k ≤ j → j < kf → fsExists fs (renameCand t j)) →
    kf - k + 1 ≤ fuel →
    renameLoop fs t (k + 1) fuel (renameCand t k) = some (renameCand t kf) := by
  intro fuel
  induction fuel with
  | zero => intro k _ _ _ hfuel; omega
  | succ f ih =>
    intro k hk1 hkkf hblocked hfuel
    by_cases hkf : k = kf
    · subst hkf
      simp only [renameLoop, if_neg hfree]
    · have hklt : k < kf := lt_of_le_of_ne hkkf hkf
      have hblk : fsExists fs (renameCand t k) := hblocked k (le_refl k) hklt
      simp only [renameLoop, if_pos hblk]
      exact ih (k + 1) (by omega) (by omega)
        (fun j hj1 hj2 => hblocked j (by omega) hj2) (by omega)

theorem handleDuplicate_rename (cfg : Config) (fs : FS) (t : FsPath)
    (hex : fsExists fs t)
    (hdh1 : cfg.duplicate_handling.getD "rename" ≠ "skip")
    (hdh2 : cfg.duplicate_handling.getD "rename" ≠ "overwrite") :
    ∃ k, 1 ≤ k ∧ handleDuplicate cfg fs t = some (renameCand t k) ∧
      ¬ fsExists fs (renameCand t k) ∧
      ∀ j, 1 ≤ j → j < k → fsExists fs (renameCand t j) := by
  have hP : ∃ k, 1 ≤ k ∧ ¬ fsExists fs (renameCand t k) := by
    obtain ⟨kw, hkw1, _, hkwfree⟩ := exists_free_cand fs t
    exact ⟨kw, hkw1, hkwfree⟩
  refine ⟨Nat.find hP, (Nat.find_spec hP).1, ?_, (Nat.find_spec hP).2, ?_⟩
  · have hkfN : Nat.find hP ≤ (occupiedKeys fs).length + 1 := by
      obtain ⟨kw, hkw1, hkwN, hkwfree⟩ := exists_free_cand fs t
      exact le_trans (Nat.find_min' hP ⟨hkw1, hkwfree⟩) hkwN
    have hblocked : ∀ j, 1 ≤ j → j < Nat.find hP → fsExists fs (renameCand t j) := by
      intro j hj1 hj2
      have := Nat.find_min hP hj2
      by_contra hno
      exact this ⟨hj1, hno⟩
    unfold handleDuplicate
    rw [if_neg (not_not_intro hex)]
    simp only [if_neg hdh1, if_neg hdh2]
    show renameLoop fs t 1 (fsFuel fs) t = some (renameCand t (Nat.find hP))
    have hfuel : fsFuel fs = ((occupiedKeys fs).length + 1) + 1 := rfl
    rw [hfuel]
    simp only [renameLoop, if_pos hex]
    exact renameLoop_correct fs t (Nat.find hP) (Nat.find_spec hP).2
      ((occupiedKeys fs).length + 1) 1 (le_refl 1) (Nat.find_spec hP).1
      (fun j hj1 hj2 => by
        have := Nat.find_min hP hj2
        by_contra hno
        exact this ⟨hj1, hno⟩)
      (by omega)
  · intro j hj1 hj2
    have := Nat.find_min hP hj2
    by_contra hno
    exact this ⟨hj1, hno⟩

theorem findCat_of_first (ext : String) :
    ∀ (pre : List (String × Rule)) (c : String) (r : Rule) (post : List (String × Rule)),
    (∀ cr ∈ pre, ext ∉ cr.2.extensions) → ext ∈ r.extensions →
    findCat (pre ++ (c, r) :: post) ext = some c := by
  intro pre
  induction pre with
  | nil =>
    intro c r post _ hmem
    simp [findCat, if_pos hmem]
  | cons hd tl ih =>
    intro c r post hpre hmem
    obtain ⟨hc, hr⟩ := hd
    have hhd : ext ∉ hr.extensions := hpre (hc, hr) (by simp)
    simp only [List.cons_append, findCat, if_neg hhd]
    exact ih c r post (fun cr hcr => hpre cr (by simp [hcr])) hmem

theorem findCat_of_none (ext : String) :
    ∀ (rules : List (String × Rule)), (∀ cr ∈ rules, ext ∉ cr.2.extensions) →
    findCat rules ext = none := by
  intro rules
  induction rules with
  | nil => intro _; rfl
  | cons hd tl ih =>
    intro h
    obtain ⟨hc, hr⟩ := hd
    have hhd : ext ∉ hr.extensions := h (hc, hr) (by simp)
    simp only [findCat, if_neg hhd]
    exact ih (fun cr hcr => h cr (by simp [hcr]))

theorem findCat_mem (ext : String) :
    ∀ (rules : List (String × Rule)) (c : String), findCat rules ext = some c →
    ∃ r, (c, r) ∈ rules ∧ ext ∈ r.extensions := by
  intro rules
  induction rules with
  | nil => intro c h; simp [findCat] at h
  | cons hd tl ih =>
    intro c h
    obtain ⟨hc, hr⟩ := hd
    by_cases hmem : ext ∈ hr.extensions
    · simp only [findCat, if_pos hmem, Option.some.injEq] at h
      exact ⟨hr, by simp [h], hmem⟩
    · simp only [findCat, if_neg hmem] at h
      obtain ⟨r, hmem2, hext⟩ := ih c h
      exact ⟨r, by simp [hmem2], hext⟩

theorem strLower_no_upper (s : String) :
    (strLower s).data.any isUpperAscii = false := by
  simp only [strLower, List.any_map, List.any_eq_false, Function.comp]
  intro c _
  simp [isUpperAscii_charLower c]

theorem strLower_ne_of_upper (s e : String) (h : e.data.any isUpperAscii = true) :
    strLower s ≠ e := by
  intro heq
  rw [← heq] at h
  rw [strLower_no_upper s] at h
  exact Bool.false_ne_true h

/-- C1: for every file name and configuration, `_get_file_category` first
lower-cases the file's extension; if that extension is in the ignore
extension list or the filename is in the ignore filename list, the result
is ignored (`none`), regardless of any category rule; otherwise the
categories are scanned in configured order and the first category whose
extension list contains the extension is returned; if none matches, the
fallback "Extras" is returned. -/
theorem c1_category_classification (cfg : Config) (name : String) :
    ((strLower (pySuffix name) ∈ cfg.ignore_extensions ∨ name ∈ cfg.ignore_files) →
      getFileCategory cfg name = none) ∧
    (strLower (pySuffix name) ∉ cfg.ignore_extensions → name ∉ cfg.ignore_files →
      ((∀ cr ∈ cfg.organize_rules, strLower (pySuffix name) ∉ cr.2.extensions) →
        getFileCategory cfg name = some "Extras") ∧
      (∀ (pre : List (String × Rule)) (c : String) (r : Rule) (post : List (String × Rule)),
        cfg.organize_rules = pre ++ (c, r) :: post →
        (∀ cr ∈ pre, strLower (pySuffix name) ∉ cr.2.extensions) →
        strLower (pySuffix name) ∈ r.extensions →
        getFileCategory cfg name = some c)) := by
  constructor
  · intro h
    unfold getFileCategory
    rcases h with h | h
    · rw [if_pos h]
    · by_cases hext : strLower (pySuffix name) ∈ cfg.ignore_extensions
      · rw [if_pos hext]
      · rw [if_neg hext, if_pos h]
  · intro hext hname
    constructor
    · intro hnone
      unfold getFileCategory
      rw [if_neg hext, if_neg hname, findCat_of_none _ _ hnone]
    · intro pre c r post hrules hpre hmem
      unfold getFileCategory
      rw [if_neg hext, if_neg hname, hrules, findCat_of_first _ pre c r post hpre hmem]

/-- Concrete configuration used by several witnesses: two ordered
categories, one ignored extension and one ignored filename. -/
def cfgDocs : Config :=
  { organize_rules :=
      [("Documents", ⟨[".txt"], ["org", "Documents"]⟩),
       ("Images", ⟨[".png"], ["org", "Images"]⟩)]
    ignore_extensions := [".tmp"]
    ignore_files := ["ignore.me"]
    duplicate_handling := none
    organize_by_date := false
    date_format := "%Y-%m"
    dry_run := false
    recursive := false
    watch_directories := ["watch"] }

theorem c1_category_classification_witness :
    getFileCategory cfgDocs "photo.PNG" = some "Images" :=
  ((c1_category_classification cfgDocs "photo.PNG").2 (by decide) (by decide)).2
    [("Documents", ⟨[".txt"], ["org", "Documents"]⟩)] "Images"
    ⟨[".png"], ["org", "Images"]⟩ [] rfl (by decide) (by decide)

/-- C2: `_handle_duplicate` returns the destination unchanged when no
filesystem entry exists at it; `none` when an entry exists and the policy
is "skip"; the destination unchanged when an entry exists and the policy
is "overwrite"; and, when an entry exists and any other policy applies
(the rename branch), the candidate `stem_k + suffix` with the smallest
counter `k ≥ 1` at which no entry exists - the search always produces a
result on the finite filesystem state (the loop terminates). -/
theorem c2_duplicate_resolution (cfg : Config) (fs : FS) (t : FsPath) :
    (¬ fsExists fs t → handleDuplicate cfg fs t = some t) ∧
    (fsExists fs t → cfg.duplicate_handling.getD "rename" = "skip" →
      handleDuplicate cfg fs t = none) ∧
    (fsExists fs t → cfg.duplicate_handling.getD "rename" = "overwrite" →
      handleDuplicate cfg fs t = some t) ∧
    (fsExists fs t → cfg.duplicate_handling.getD "rename" ≠ "skip" →
      cfg.duplicate_handling.getD "rename" ≠ "overwrite" →
      ∃ k, 1 ≤ k ∧ handleDuplicate cfg fs t = some (renameCand t k) ∧
        ¬ fsExists fs (renameCand t k) ∧
        ∀ j, 1 ≤ j → j < k → fsExists fs (renameCand t j)) := by
  refine ⟨?_, ?_, ?_, ?_⟩
  · intro h
    unfold handleDuplicate
    rw [if_pos h]
  · intro hex hdh
    unfold handleDuplicate
    rw [if_neg (not_not_intro hex)]
    rw [hdh]
    simp
  · intro hex hdh
    unfold handleDuplicate
    rw [if_neg (not_not_intro hex)]
    rw [hdh]
    simp
  · intro hex hdh1 hdh2
    exact handleDuplicate_rename cfg fs t hex hdh1 hdh2

/-- Filesystem used by the C2 witness: the intended destination and its
first rename candidate are both occupied, the second candidate is free. -/
def fsDup : FS :=
  { files := [⟨["org", "Documents"], "a.txt"⟩, ⟨["org", "Documents"], "a_1.txt"⟩]
    dirs := [["org"], ["org", "Documents"]] }

theorem c2_duplicate_resolution_witness :
    handleDuplicate cfgDocs fsDup ⟨["org", "Documents"], "a.txt"⟩ =
      some (renameCand ⟨["org", "Documents"], "a.txt"⟩ 2) := by
  obtain ⟨k, hk1, heq, hfree, hblk⟩ :=
    (c2_duplicate_resolution cfgDocs fsDup ⟨["org", "Documents"], "a.txt"⟩).2.2.2
      (by decide) (by decide) (by decide)
  have h1 : fsExists fsDup (renameCand ⟨["org", "Documents"], "a.txt"⟩ 1) := by decide
  have h2 : ¬ fsExists fsDup (renameCand ⟨["org", "Documents"], "a.txt"⟩ 2) := by decide
  have hne1 : k ≠ 1 := fun h => hfree (h ▸ h1)
  have hle2 : ¬ (2 < k) := fun h => h2 (hblk 2 (by omega) h)
  have hk2 : k = 2 := by omega
  rw [hk2] at heq
  exact heq

/-- C9: category matching compares the lower-cased file extension for
exact string equality against the configured extension strings exactly as
written; the configuration side is never normalized, so a configured
extension containing an ASCII uppercase letter can never match any file:
the lower-cased extension never equals such a string, and a category all
of whose configured extensions contain an uppercase letter is never
returned by `_get_file_category`. -/
theorem c9_config_side_never_lowered :
    (∀ s e : String, e.data.any isUpperAscii = true → strLower s ≠ e) ∧
    (∀ (cfg : Config) (name c : String), c ≠ "Extras" →
      (∀ cr ∈ cfg.organize_rules, cr.1 = c →
        ∀ e ∈ cr.2.extensions, e.data.any isUpperAscii = true) →
      getFileCategory cfg name ≠ some c) := by
  constructor
  · exact strLower_ne_of_upper
  · intro cfg name c hce hupper hsome
    unfold getFileCategory at hsome
    by_cases hext : strLower (pySuffix name) ∈ cfg.ignore_extensions
    · rw [if_pos hext] at hsome
      exact Option.noConfusion hsome
    · rw [if_neg hext] at hsome
      by_cases hname : name ∈ cfg.ignore_files
      · rw [if_pos hname] at hsome
        exact Option.noConfusion hsome
      · rw [if_neg hname] at hsome
        cases hfind : findCat cfg.organize_rules (strLower (pySuffix name)) with
        | none =>
          rw [hfind] at hsome
          simp only [Option.some.injEq] at hsome
          exact hce hsome.symm
        | some c2 =>
          rw [hfind] at hsome
          simp only [Option.some.injEq] at hsome
          obtain ⟨r, hmem, hextmem⟩ := findCat_mem _ _ _ hfind
          have hmemc : (c, r) ∈ cfg.organize_rules := hsome ▸ hmem
          have hup : (strLower (pySuffix name)).data.any isUpperAscii = true :=
            hupper (c, r) hmemc rfl _ hextmem
          rw [strLower_no_upper] at hup
          exact Bool.false_ne_true hup

/-- Configuration for the C9 witness: the only category is configured with
the upper-case extension ".TXT". -/
def cfgUpper : Config :=
  { cfgDocs with organize_rules := [("Docs", ⟨[".TXT"], ["org", "Docs"]⟩)] }

theorem c9_config_side_never_lowered_witness :
    getFileCategory cfgUpper "a.txt" ≠ some "Docs" :=
  c9_config_side_never_lowered.2 cfgUpper "a.txt" "Docs" (by decide) (by decide)

/-- C10: any `duplicate_handling` configuration other than the exact
strings "skip" and "overwrite" - including a missing key - makes
`_handle_duplicate` behave exactly as the explicit "rename" policy on
every filesystem state and destination. -/
theorem c10_default_policy_is_rename (cfg : Config) (fs : FS) (t : FsPath)
    (h1 : cfg.duplicate_handling ≠ some "skip")
    (h2 : cfg.duplicate_handling ≠ some "overwrite") :
    handleDuplicate cfg fs t =
      handleDuplicate { cfg with duplicate_handling := some "rename" } fs t := by
  unfold handleDuplicate
  by_cases hex : fsExists fs t
  · rw [if_neg (not_not_intro hex), if_neg (not_not_intro hex)]
    cases hdh : cfg.duplicate_handling with
    | none => simp
    | some s =>
      have hs1 : s ≠ "skip" := by
        intro h
        exact h1 (by rw [hdh, h])
      have hs2 : s ≠ "overwrite" := by
        intro h
        exact h2 (by rw [hdh, h])
      simp [hs1, hs2]
  · rw [if_pos hex, if_pos hex]

/-- Configuration for the C10 witness: an unrecognized duplicate policy
string. -/
def cfgBogus : Config := { cfgDocs with duplicate_handling := some "bogus" }

theorem c10_default_policy_is_rename_witness :
    handleDuplicate cfgBogus fsDup ⟨["org", "Documents"], "a.txt"⟩ =
      handleDuplicate { cfgBogus with duplicate_handling := some "rename" } fsDup
        ⟨["org", "Documents"], "a.txt"⟩ :=
  c10_default_policy_is_rename cfgBogus fsDup ⟨["org", "Documents"], "a.txt"⟩
    (by decide) (by decide)

/-- C6: for every observed path and in-flight state, the stability
detector never invokes `organize_file` when the file no longer exists at
either existence check or when the two size probes disagree; in each of
these cases the event is rejected without retry (the call simply
returns). -/
theorem c6_stability_rejects (inflight : List String) (path : String) (pr : Probe)
    (h : pr.exists1 = false ∨ pr.exists2 = false ∨ pr.size1 ≠ pr.size2) :
    (processFile inflight path pr).organized = false := by
  unfold processFile
  by_cases hin : path ∈ inflight
  · rw [if_pos hin]
  · rw [if_neg hin]
    rcases h with h | h | h
    · simp [h]
    · by_cases h1 : pr.exists1
      · simp [h1, h]
      · simp [h1]
    · by_cases h1 : pr.exists1
      · by_cases h2 : pr.exists2
        · simp [h1, h2, h]
        · simp [h1, h2]
      · simp [h1]

theorem c6_stability_rejects_witness :
    (processFile [] "watch/a.txt" ⟨true, 100, true, 260⟩).organized = false :=
  c6_stability_rejects [] "watch/a.txt" ⟨true, 100, true, 260⟩ (by decide)

theorem processFile_of_mem (inflight : List String) (path : String) (pr : Probe)
    (h : path ∈ inflight) : processFile inflight path pr = ⟨inflight, false, false⟩ := by
  unfold processFile
  rw [if_pos h]

/-- C7: an event for a path that is already in the in-flight set is
dropped as a no-op. Processing a first event for a path not in flight
enters the probe sequence and leaves the path in the set (the deferred
removal has not run), so a second event for the same path arriving before
the first entry is released neither enters the probe sequence nor changes
the state: the pair of events yields exactly one probe-and-place
decision. -/
theorem c7_duplicate_events_coalesce (inflight : List String) (path : String)
    (pr1 pr2 : Probe) (h : path ∉ inflight) :
    (processFile inflight path pr1).ran = true ∧
    path ∈ (processFile inflight path pr1).inflight ∧
    (processFile (processFile inflight path pr1).inflight path pr2).ran = false ∧
    (processFile (processFile inflight path pr1).inflight path pr2).organized = false ∧
    (processFile (processFile inflight path pr1).inflight path pr2).inflight =
      (processFile inflight path pr1).inflight := by
  have hstate : (processFile inflight path pr1).inflight = path :: inflight ∧
      (processFile inflight path pr1).ran = true := by
    unfold processFile
    rw [if_neg h]
    by_cases h1 : pr1.exists1
    · by_cases h2 : pr1.exists2
      · by_cases h3 : pr1.size1 = pr1.size2
        · simp [h1, h2, h3]
        · simp [h1, h2, h3]
      · simp [h1, h2]
    · simp [h1]
  have hmem : path ∈ (processFile inflight path pr1).inflight := by
    rw [hstate.1]
    exact List.mem_cons_self path inflight
  have hdrop : processFile (processFile inflight path pr1).inflight path pr2 =
      ⟨(processFile inflight path pr1).inflight, false, false⟩ :=
    processFile_of_mem _ _ _ hmem
  exact ⟨hstate.2, hmem, by rw [hdrop], by rw [hdrop], by rw [hdrop]⟩

theorem c7_duplicate_events_coalesce_witness :
    (processFile ((processFile [] "watch/b.txt" ⟨true, 5, true, 5⟩).inflight)
      "watch/b.txt" ⟨true, 5, true, 5⟩).ran = false :=
  (c7_duplicate_events_coalesce [] "watch/b.txt" ⟨true, 5, true, 5⟩ ⟨true, 5, true, 5⟩
    (by decide)).2.2.1

/-- Trivial strftime stand-in used by concrete witnesses. -/
def strfZ : String → Nat → String := fun _ _ => ""

/-- Trivial mtime stand-in used by concrete witnesses. -/
def mtimeZ : FsPath → Nat := fun _ => 0

/-- Zeroed counters used by concrete witnesses. -/
def statsZ : Stats := ⟨0, 0, 0⟩

/-- A filesystem whose only entries are directories, so that the observed
path is a directory. -/
def fsDir : FS := ⟨[], [["watch"], ["watch", "sub"]]⟩

/-- The directory path handed to `organize_file` in the C3
counterexample. -/
def pDir : FsPath := ⟨["watch"], "sub"⟩

/-- C3 counterexample: `organize_file` on a directory input returns with
all counters unchanged - in particular the skipped counter is NOT
incremented, contradicting the claim that a directory input counts as
skipped. -/
theorem c3_directory_counter_counterexample :
    isDirFS fsDir pDir ∧
    (organizeFile strfZ mtimeZ cfgDocs MoveRes.ok fsDir statsZ pDir).stats.skipped ≠
      statsZ.skipped + 1 ∧
    (organizeFile strfZ mtimeZ cfgDocs MoveRes.ok fsDir statsZ pDir).stats = statsZ := by
  refine ⟨by decide, by decide, by decide⟩

/-- C3 amended: for every input that is a directory, `organize_file`
returns `False` immediately and silently - it performs no move, emits no
log record, and leaves the filesystem and all three counters (moved,
skipped, errors) unchanged. -/
theorem c3_directory_skipped_silently (strf : String → Nat → String)
    (mtime : FsPath → Nat) (cfg : Config) (mv : MoveRes) (fs : FS) (stats : Stats)
    (p : FsPath) (h : isDirFS fs p) :
    organizeFile strf mtime cfg mv fs stats p = ⟨false, stats, fs, []⟩ := by
  unfold organizeFile
  rw [if_pos h]

theorem c3_directory_skipped_silently_witness :
    organizeFile strfZ mtimeZ cfgDocs MoveRes.ok fsDir statsZ pDir =
      ⟨false, statsZ, fsDir, []⟩ :=
  c3_directory_skipped_silently strfZ mtimeZ cfgDocs MoveRes.ok fsDir statsZ pDir
    (by decide)

theorem organizeFiles_cons (strf : String → Nat → String) (mtime : FsPath → Nat)
    (cfg : Config) (mvs : FsPath → MoveRes) (fs : FS) (stats : Stats) (p : FsPath)
    (rest : List FsPath) :
    organizeFiles strf mtime cfg mvs fs stats (p :: rest) =
      organizeFiles strf mtime cfg mvs
        (organizeFile strf mtime cfg (mvs p) fs stats p).fs
        (organizeFile strf mtime cfg (mvs p) fs stats p).stats rest := rfl

/-- C4: when the move raises (permission denied or any other failure) the
exception is caught at the per-file boundary: `organize_file` returns
`False` instead of propagating, increments the errors counter by exactly
one (moved and skipped unchanged), logs a message that distinguishes
permission denied from any other failure, and the per-file loop continues
with the remaining files from the updated state. -/
theorem c4_error_boundary (strf : String → Nat → String) (mtime : FsPath → Nat)
    (cfg : Config) (mv : MoveRes) (fs : FS) (stats : Stats) (p : FsPath) (c : String)
    (tgt : FsPath) (mvs : FsPath → MoveRes) (rest : List FsPath)
    (hdir : ¬ isDirFS fs p)
    (hc : getFileCategory cfg p.name = some c) (hcne : c ≠ "")
    (hdup : handleDuplicate cfg (getTargetPath strf mtime cfg fs p c).2
      (getTargetPath strf mtime cfg fs p c).1 = some tgt)
    (hdry : cfg.dry_run = false)
    (herr : mv = MoveRes.permError ∨ mv = MoveRes.otherError)
    (hmv : mvs p = mv) :
    (organizeFile strf mtime cfg mv fs stats p).ret = false ∧
    (organizeFile strf mtime cfg mv fs stats p).stats.errors = stats.errors + 1 ∧
    (organizeFile strf mtime cfg mv fs stats p).stats.moved = stats.moved ∧
    (organizeFile strf mtime cfg mv fs stats p).stats.skipped = stats.skipped ∧
    (organizeFile strf mtime cfg mv fs stats p).logs =
      [if mv = MoveRes.permError then LogMsg.permDenied p else LogMsg.genericError p] ∧
    organizeFiles strf mtime cfg mvs fs stats (p :: rest) =
      organizeFiles strf mtime cfg mvs (organizeFile strf mtime cfg mv fs stats p).fs
        (organizeFile strf mtime cfg mv fs stats p).stats rest := by
  have hstep : ∀ m : MoveRes, m = MoveRes.permError ∨ m = MoveRes.otherError →
      organizeFile strf mtime cfg m fs stats p =
        ⟨false, { stats with errors := stats.errors + 1 },
          (getTargetPath strf mtime cfg fs p c).2,
          [if m = MoveRes.permError then LogMsg.permDenied p
           else LogMsg.genericError p]⟩ := by
    intro m hm
    unfold organizeFile
    rw [if_neg hdir, hc]
    simp only [if_neg hcne, hdup, hdry]
    rcases hm with hm | hm <;> subst hm <;> simp
  constructor
  · rw [hstep mv herr]
  constructor
  · rw [hstep mv herr]
  constructor
  · rw [hstep mv herr]
  constructor
  · rw [hstep mv herr]
  constructor
  · rw [hstep mv herr]
  · rw [organizeFiles_cons, hmv]

/-- Source file used by the error-path and dry-run witnesses. -/
def pDoc : FsPath := ⟨["watch"], "doc.txt"⟩

/-- A filesystem containing just the watch directory and the source
file. -/
def fsDoc : FS := ⟨[pDoc], [["watch"]]⟩

theorem c4_error_boundary_witness :
    (organizeFile strfZ mtimeZ cfgDocs MoveRes.permError fsDoc statsZ pDoc).stats.errors
      = 1 ∧
    (organizeFile strfZ mtimeZ cfgDocs MoveRes.permError fsDoc statsZ pDoc).logs =
      [LogMsg.permDenied pDoc] := by
  have h := c4_error_boundary strfZ mtimeZ cfgDocs MoveRes.permError fsDoc statsZ pDoc
    "Documents" ⟨["org", "Documents"], "doc.txt"⟩ (fun _ => MoveRes.permError) []
    (by decide) (by decide) (by decide) (by decide) rfl (Or.inl rfl) rfl
  exact ⟨h.2.1, by rw [h.2.2.2.2.1]; simp⟩

/-- C5 amended: when the category is "Extras" and at least one category is
configured, the destination base directory is the parent of the first
configured category's target directory with "Extras" appended; when no
categories are configured, the hard-coded literal path
`C:\Users\lnloh\Documents\Organized\Extras` from the source is used - it
is a constant in the code, not a value drawn from the configuration. -/
theorem c5_extras_base_directory (strf : String → Nat → String) (mtime : FsPath → Nat)
    (cfg : Config) (fs : FS) (p : FsPath) :
    (cfg.organize_rules = [] →
      (getTargetPath strf mtime cfg fs p "Extras").1.dir =
        (if cfg.organize_by_date then defaultExtrasDir ++ [strf cfg.date_format (mtime p)]
         else defaultExtrasDir)) ∧
    (∀ (c : String) (r : Rule) (rest : List (String × Rule)),
      cfg.organize_rules = (c, r) :: rest →
      (getTargetPath strf mtime cfg fs p "Extras").1.dir =
        (if cfg.organize_by_date then
          (r.target_folder.dropLast ++ ["Extras"]) ++ [strf cfg.date_format (mtime p)]
         else r.target_folder.dropLast ++ ["Extras"])) := by
  constructor
  · intro h
    unfold getTargetPath
    rw [h]
    simp
  · intro c r rest h
    unfold getTargetPath
    rw [h]
    simp

/-- Configuration A of the C5 counterexample: no categories, and every
other field chosen differently from configuration B. -/
def cfgNoRulesA : Config :=
  ⟨[], [".a"], ["x"], some "skip", false, "F1", true, true, ["w1"]⟩

/-- Configuration B of the C5 counterexample. -/
def cfgNoRulesB : Config :=
  ⟨[], [".b"], ["y"], some "overwrite", false, "F2", false, false, ["w2"]⟩

/-- An empty filesystem for concrete runs. -/
def fsZ : FS := ⟨[], []⟩

/-- An unmatched file for concrete runs. -/
def pXyz : FsPath := ⟨["watch"], "n.xyz"⟩

/-- C5 counterexample: with no categories configured, the Extras base
directory is NOT supplied by configuration - two configurations that
differ in every remaining field both yield the same hard-coded literal
directory from the source code. -/
theorem c5_default_from_config_counterexample :
    cfgNoRulesA ≠ cfgNoRulesB ∧
    (getTargetPath strfZ mtimeZ cfgNoRulesA fsZ pXyz "Extras").1.dir = defaultExtrasDir ∧
    (getTargetPath strfZ mtimeZ cfgNoRulesB fsZ pXyz "Extras").1.dir = defaultExtrasDir := by
  refine ⟨by decide, by decide, by decide⟩

theorem c5_extras_base_directory_witness :
    (getTargetPath strfZ mtimeZ cfgDocs fsZ pXyz "Extras").1.dir = ["org", "Extras"] := by
  have h := (c5_extras_base_directory strfZ mtimeZ cfgDocs fsZ pXyz).2 "Documents"
    ⟨[".txt"], ["org", "Documents"]⟩
    [("Images", ⟨[".png"], ["org", "Images"]⟩)] rfl
  simpa using h

theorem getTargetPath_snd (strf : String → Nat → String) (mtime : FsPath → Nat)
    (cfg : Config) (fs : FS) (p : FsPath) (category : String) :
    (getTargetPath strf mtime cfg fs p category).2 =
      mkdirParents fs ((getTargetPath strf mtime cfg fs p category).1.dir) := rfl

/-- C8: for a non-directory input whose category is not ignored and whose
duplicate resolution does not signal skip, running `organize_file` with
the dry-run flag set returns `True`, increments the moved counter (other
counters unchanged), performs no move - the regular files, including the
source, are untouched - while the destination directory chain is still
created as a side effect of `_get_target_path`. -/
theorem c8_dry_run_counts_without_moving (strf : String → Nat → String)
    (mtime : FsPath → Nat) (cfg : Config) (mv : MoveRes) (fs : FS) (stats : Stats)
    (p : FsPath) (c : String) (tgt : FsPath)
    (hdry : cfg.dry_run = true)
    (hdir : ¬ isDirFS fs p)
    (hc : getFileCategory cfg p.name = some c) (hcne : c ≠ "")
    (hdup : handleDuplicate cfg (getTargetPath strf mtime cfg fs p c).2
      (getTargetPath strf mtime cfg fs p c).1 = some tgt) :
    (organizeFile strf mtime cfg mv fs stats p).ret = true ∧
    (organizeFile strf mtime cfg mv fs stats p).stats =
      { stats with moved := stats.moved + 1 } ∧
    (organizeFile strf mtime cfg mv fs stats p).fs.files = fs.files ∧
    (p ∈ fs.files → p ∈ (organizeFile strf mtime cfg mv fs stats p).fs.files) ∧
    (∀ q ∈ dirPrefixes ((getTargetPath strf mtime cfg fs p c).1.dir),
      q ∈ (organizeFile strf mtime cfg mv fs stats p).fs.dirs) := by
  have hstep : organizeFile strf mtime cfg mv fs stats p =
      ⟨true, { stats with moved := stats.moved + 1 },
        (getTargetPath strf mtime cfg fs p c).2, [LogMsg.dryRunMove p tgt]⟩ := by
    unfold organizeFile
    rw [if_neg hdir, hc]
    simp only [if_neg hcne, hdup, hdry]
    simp
  refine ⟨by rw [hstep], by rw [hstep], ?_, ?_, ?_⟩
  · rw [hstep]
    show (getTargetPath strf mtime cfg fs p c).2.files = fs.files
    rw [getTargetPath_snd, files_mkdirParents]
  · intro hmem
    rw [hstep]
    show p ∈ (getTargetPath strf mtime cfg fs p c).2.files
    rw [getTargetPath_snd, files_mkdirParents]
    exact hmem
  · intro q hq
    rw [hstep]
    show q ∈ (getTargetPath strf mtime cfg fs p c).2.dirs
    rw [getTargetPath_snd]
    exact (mem_mkdirParents fs _ q).mpr (Or.inr hq)

/-- Dry-run variant of the witness configuration. -/
def cfgDry : Config := { cfgDocs with dry_run := true }

theorem c8_dry_run_counts_without_moving_witness :
    (organizeFile strfZ mtimeZ cfgDry MoveRes.ok fsDoc statsZ pDoc).stats = ⟨1, 0, 0⟩ ∧
    (organizeFile strfZ mtimeZ cfgDry MoveRes.ok fsDoc statsZ pDoc).fs.files =
      fsDoc.files ∧
    pDoc ∈ (organizeFile strfZ mtimeZ cfgDry MoveRes.ok fsDoc statsZ pDoc).fs.files := by
  have h := c8_dry_run_counts_without_moving strfZ mtimeZ cfgDry MoveRes.ok fsDoc statsZ
    pDoc "Documents" ⟨["org", "Documents"], "doc.txt"⟩ rfl (by decide) (by decide)
    (by decide) (by decide)
  exact ⟨h.2.1, h.2.2.1, h.2.2.2.1 (by decide)⟩
